import Mathlib

/-!
# Verification of the aescrypt_cli batch file-processing pipeline

This file gives a shallow embedding, in Lean 4, of the core logic of the
AES Crypt command-line program (repository terrapane/aescrypt_cli) and
settles a list of claims about it.

Conventions used throughout:

* Octets (bytes) are modelled as `Nat`; where the C++ code masks a value
  (for instance `value & 0x3f`), the model writes the corresponding
  `% 64`, which agrees with the mask on all byte values.
* File paths are modelled as `List Char`.
* Functions of the program are translated from the C++ sources
  (`key_file.cpp`, `password_convert.cpp`, `encrypt_files.cpp`,
  `decrypt_files.cpp`, `password_prompt.cpp`); logging output is dropped
  except where a claim mentions it, and stream I/O is replaced by the
  octet lists that flow through the streams.
* The external Terra::CharUtil text-conversion helpers are not part of
  this repository; they are modelled by the standard Unicode algorithms
  the spec describes (sections marked `Modelled from the spec`).
-/

/-! ## Key-file character set and generation (`key_file.cpp`) -/

/-- The 64-character alphabet used for generated key files
(`Key_Characters` in `key_file.cpp`): upper-case letters, lower-case
letters, digits, underscore and plus, as ASCII octet values. -/
def Key_Characters : List Nat :=
  [65, 66, 67, 68, 69, 70, 71, 72,
   73, 74, 75, 76, 77, 78, 79, 80,
   81, 82, 83, 84, 85, 86, 87, 88,
   89, 90, 97, 98, 99, 100, 101, 102,
   103, 104, 105, 106, 107, 108, 109, 110,
   111, 112, 113, 114, 115, 116, 117, 118,
   119, 120, 121, 122, 48, 49, 50, 51,
   52, 53, 54, 55, 56, 57, 95, 43]

/-- One step of the conversion loop in `GenerateKeyFile`
(`value = Key_Characters[(value & 0x3f)]`): the low six bits of the
random octet select an entry of the alphabet. -/
def keyChar (v : Nat) : Nat :=
  Key_Characters.getD (v % 64) 0

/-! ## UTF-8 validation (models `Terra::CharUtil::IsUTF8Valid`) -/

/-- State-machine core of UTF-8 validation: `count` is the number of
continuation octets still expected, and `lo`/`hi` bound the next octet
when `count > 0` (the first continuation octet of a sequence has a
restricted range that excludes overlong forms, surrogates and values
above U+10FFFF; later ones are plain `0x80..0xBF`). -/
def isUTF8ValidAux : Nat → Nat → Nat → List Nat → Bool
  | 0, _, _, [] => true
  | 0, _, _, b :: rest =>
    if b ≤ 0x7F then isUTF8ValidAux 0 0 0 rest
    else if 0xC2 ≤ b ∧ b ≤ 0xDF then isUTF8ValidAux 1 0x80 0xBF rest
    else if b = 0xE0 then isUTF8ValidAux 2 0xA0 0xBF rest
    else if (0xE1 ≤ b ∧ b ≤ 0xEC) ∨ b = 0xEE ∨ b = 0xEF then
      isUTF8ValidAux 2 0x80 0xBF rest
    else if b = 0xED then isUTF8ValidAux 2 0x80 0x9F rest
    else if b = 0xF0 then isUTF8ValidAux 3 0x90 0xBF rest
    else if 0xF1 ≤ b ∧ b ≤ 0xF3 then isUTF8ValidAux 3 0x80 0xBF rest
    else if b = 0xF4 then isUTF8ValidAux 3 0x80 0x8F rest
    else false
  | _ + 1, _, _, [] => false
  | k + 1, lo, hi, b :: rest =>
    if lo ≤ b ∧ b ≤ hi then isUTF8ValidAux k 0x80 0xBF rest else false

/-- Modelled from the spec: the external
`Terra::CharUtil::IsUTF8Valid` routine used by `ReadKeyFile` to "verify
the remainder is valid UTF-8".  This is standard RFC 3629 validation:
well-formed lead/continuation structure, no overlong forms, no
surrogates, nothing above U+10FFFF. -/
def isUTF8Valid (l : List Nat) : Bool :=
  isUTF8ValidAux 0 0 0 l

/-! ## UTF-16 to UTF-8 conversion
(`password_convert.cpp` plus the external `ConvertUTF16ToUTF8`) -/

/-- Pair consecutive octets into 16-bit UTF-16 code units in the given
byte order (a trailing odd octet yields no unit; callers ensure the
octet count is even). -/
def utf16CodeUnits (little_endian : Bool) : List Nat → List Nat
  | b0 :: b1 :: rest =>
    (if little_endian then b0 + 256 * b1 else 256 * b0 + b1) ::
      utf16CodeUnits little_endian rest
  | _ => []

/-- State-machine core of UTF-16 decoding: the first argument holds a
pending high surrogate still awaiting its low half. -/
def decodeUTF16Aux : Option Nat → List Nat → Option (List Nat)
  | none, [] => some []
  | some _, [] => none
  | none, u :: rest =>
    if u < 0xD800 ∨ 0xDFFF < u then
      Option.map (fun t => u :: t) (decodeUTF16Aux none rest)
    else if u ≤ 0xDBFF then decodeUTF16Aux (some u) rest
    else none
  | some hsur, l :: rest =>
    if 0xDC00 ≤ l ∧ l ≤ 0xDFFF then
      Option.map
        (fun t => (0x10000 + (hsur - 0xD800) * 0x400 + (l - 0xDC00)) :: t)
        (decodeUTF16Aux none rest)
    else none

/-- Decode a list of UTF-16 code units into Unicode scalar values,
combining surrogate pairs; any unpaired surrogate is a failure. -/
def decodeUTF16 (units : List Nat) : Option (List Nat) :=
  decodeUTF16Aux none units

/-- Encode one Unicode scalar value as UTF-8 octets (standard 1- to
4-octet forms). -/
def encodeUTF8Char (c : Nat) : List Nat :=
  if c < 0x80 then [c]
  else if c < 0x800 then
    [0xC0 + c / 64, 0x80 + c % 64]
  else if c < 0x10000 then
    [0xE0 + c / 4096, 0x80 + (c / 64) % 64, 0x80 + c % 64]
  else
    [0xF0 + c / 0x40000, 0x80 + (c / 4096) % 64, 0x80 + (c / 64) % 64,
     0x80 + c % 64]

/-- Modelled from the spec: the external
`Terra::CharUtil::ConvertUTF16ToUTF8` routine, which transcodes UTF-16
code units (in the stated byte order) to UTF-8 and fails on malformed
input. -/
def convertUTF16ToUTF8 (bytes : List Nat) (little_endian : Bool) :
    Option (List Nat) :=
  match decodeUTF16 (utf16CodeUnits little_endian bytes) with
  | some scalars => some (scalars.flatMap encodeUTF8Char)
  | none => none

/-- `PasswordConvertUTF8` from `password_convert.cpp`: reject an odd
octet count, convert, and return an empty result if the conversion
failed or produced nothing. -/
def passwordConvertUTF8 (password : List Nat) (little_endian : Bool) :
    List Nat :=
  if password.length % 2 ≠ 0 then []
  else
    match convertUTF16ToUTF8 password little_endian with
    | some out => if out = [] then [] else out
    | none => []

/-! ## Reading a key file (`ReadKeyFile` in `key_file.cpp`)

`ReadKeyFile` returns a (secure) string; an empty string signals an
error.  The model below starts from the point where the full octet
content of the file has been read (lines 343-413 of `key_file.cpp`). -/

/-- The truncation loop of `ReadKeyFile`: cut the key at the first
NUL (0), CR (13) or LF (10) octet. -/
def truncateAtTerminator : List Nat → List Nat
  | [] => []
  | c :: rest =>
    if c = 0 ∨ c = 13 ∨ c = 10 then []
    else c :: truncateAtTerminator rest

/-- `ReadKeyFile` on the octet content of a key file.  If the first
octet is neither 0xFE nor 0xFF the content is taken to be UTF-8:
truncate at the first NUL/CR/LF and validate.  Otherwise the content is
taken to be UTF-16: the octet count must be even and at least 4, the
first octet decides the endianness (0xFF means little endian), the
two-octet BOM is stripped and the rest converted to UTF-8.  An empty
result signals an error. -/
def readKeyFileContent (key : List Nat) : List Nat :=
  match key with
  | [] => []
  | b0 :: _ =>
    if b0 ≠ 0xFE ∧ b0 ≠ 0xFF then
      let t := truncateAtTerminator key
      if isUTF8Valid t then t else []
    else if key.length % 2 ≠ 0 then []
    else if key.length < 4 then []
    else passwordConvertUTF8 (key.drop 2) (b0 == 0xFF)

example : readKeyFileContent [0x41, 0x42] = [0x41, 0x42] := by decide
example : readKeyFileContent [0x41, 10, 0x42] = [0x41] := by decide
example : readKeyFileContent [0xFF, 0xFE, 0x41, 0] = [0x41] := by decide
example : readKeyFileContent [0xFE, 0xFF, 0, 0x41] = [0x41] := by decide
example : readKeyFileContent [0xFF, 0, 0x41, 0] = [0x41] := by decide
example : readKeyFileContent [0xFF, 0xFE, 0x41] = [] := by decide

/-! ## Spec-side formulations for the key-file claims -/

/-- Spec wording: an octet that terminates the key text (NUL,
carriage-return or line-feed). -/
def notTerminator (c : Nat) : Bool :=
  !(c == 0 || c == 13 || c == 10)

/-- Spec wording of the UTF-8 branch: "truncate the key at the first
NUL, carriage-return, or line-feed byte" and keep it only if the prefix
is valid UTF-8 (else an empty result). -/
def utf8KeyPath (key : List Nat) : List Nat :=
  let p := key.takeWhile notTerminator
  if isUTF8Valid p then p else []

/-- Spec wording of the UTF-16 branch: "require an even total byte
length ≥ 4 octets, strip the BOM, and transcode the remaining UTF-16
code units to UTF-8" (else an empty result). -/
def utf16KeyPath (key : List Nat) (little_endian : Bool) : List Nat :=
  if key.length % 2 = 0 ∧ 4 ≤ key.length then
    passwordConvertUTF8 (key.drop 2) little_endian
  else []

/-- Claim C4 as stated: classification by the first TWO octets --
`0xFF 0xFE` means little-endian UTF-16, `0xFE 0xFF` means big-endian
UTF-16, and ANY other leading octet pair means UTF-8. -/
def readKeyFileByBOMPair (key : List Nat) : List Nat :=
  match key with
  | [] => []
  | b0 :: b1 :: _ =>
    if b0 = 0xFF ∧ b1 = 0xFE then utf16KeyPath key true
    else if b0 = 0xFE ∧ b1 = 0xFF then utf16KeyPath key false
    else utf8KeyPath key
  | [_] => utf8KeyPath key

/-- Amended claim C4: classification by the first octet only -- `0xFF`
means little-endian UTF-16, `0xFE` means big-endian UTF-16, and any
other leading octet means UTF-8; in the UTF-16 cases the first two
octets are stripped as the BOM whatever the second octet is. -/
def readKeyFileByFirstByte (key : List Nat) : List Nat :=
  match key with
  | [] => []
  | b0 :: _ =>
    if b0 = 0xFF then utf16KeyPath key true
    else if b0 = 0xFE then utf16KeyPath key false
    else utf8KeyPath key

theorem truncateAtTerminator_eq_takeWhile (l : List Nat) :
    truncateAtTerminator l = l.takeWhile notTerminator := by
  induction l with
  | nil => rfl
  | cons c rest ih =>
    by_cases h : c = 0 ∨ c = 13 ∨ c = 10
    · have hb : notTerminator c = false := by
        simp only [notTerminator]
        rcases h with h | h | h <;> simp [h]
      simp [truncateAtTerminator, List.takeWhile, h, hb]
    · have hb : notTerminator c = true := by
        simp only [notTerminator]
        push_neg at h
        simp [h.1, h.2.1, h.2.2]
      simp [truncateAtTerminator, List.takeWhile, h, hb, ih]

theorem readKeyFileContent_eq_byFirstByte (key : List Nat) :
    readKeyFileContent key = readKeyFileByFirstByte key := by
  cases key with
  | nil => rfl
  | cons b0 rest =>
    by_cases hFF : b0 = 0xFF
    · subst hFF
      simp only [readKeyFileContent, readKeyFileByFirstByte, utf16KeyPath]
      norm_num
      split_ifs <;> first | rfl | (exfalso; omega)
    · by_cases hFE : b0 = 0xFE
      · subst hFE
        simp only [readKeyFileContent, readKeyFileByFirstByte, utf16KeyPath]
        norm_num
        split_ifs <;> first | rfl | (exfalso; omega)
      · simp only [readKeyFileContent, readKeyFileByFirstByte, utf8KeyPath]
        simp [hFE, hFF, truncateAtTerminator_eq_takeWhile]

/-- Claim C4 (counterexample): on content `FF 00 41 00` the code treats
the first octet 0xFF alone as announcing little-endian UTF-16 (the
second octet 0x00 is stripped as part of the BOM) and returns "A",
while the claim's two-octet classification calls this pair "any other
leading byte pair", takes the UTF-8 branch, truncates at the NUL and
rejects the remaining 0xFF as invalid UTF-8, returning empty. -/
theorem claim_C4_counterexample :
    readKeyFileContent [0xFF, 0x00, 0x41, 0x00] = [0x41] ∧
    readKeyFileByBOMPair [0xFF, 0x00, 0x41, 0x00] = [] := by
  decide

/-- Claim C4 (amended): `ReadKeyFile` decides the key file's encoding by
inspecting the FIRST byte of its content: 0xFF means little-endian
UTF-16, 0xFE means big-endian UTF-16, and any other leading byte means
UTF-8; for content classified as UTF-16 it requires an even total byte
length of at least 4 octets, strips the first two octets as the BOM
(whatever the second octet is), and transcodes the remaining UTF-16
code units to UTF-8, returning an empty result on any violation. -/
theorem claim_C4_first_byte_classification (key : List Nat) :
    readKeyFileContent key = readKeyFileByFirstByte key :=
  readKeyFileContent_eq_byFirstByte key

/-- Claim C8: for every key-file content whose first byte is neither
0xFE nor 0xFF (the UTF-8 case), `ReadKeyFile` truncates the content at
the first NUL, CR or LF byte and returns that prefix exactly when the
prefix is valid UTF-8, returning an empty result otherwise; and in the
UTF-16 case a failed conversion also yields an empty result -- never a
partially converted secret. -/
theorem claim_C8_utf8_truncation_and_malformation (key : List Nat) (b0 : Nat)
    (hhead : key.head? = some b0) :
    (b0 ≠ 0xFE → b0 ≠ 0xFF →
      ((isUTF8Valid (key.takeWhile notTerminator) = true →
          readKeyFileContent key = key.takeWhile notTerminator) ∧
       (isUTF8Valid (key.takeWhile notTerminator) = false →
          readKeyFileContent key = []))) ∧
    ((b0 = 0xFE ∨ b0 = 0xFF) →
      convertUTF16ToUTF8 (key.drop 2) (b0 == 0xFF) = none →
      readKeyFileContent key = []) := by
  cases key with
  | nil => simp at hhead
  | cons a rest =>
    have ha : a = b0 := by simpa using hhead
    subst ha
    constructor
    · intro h1 h2
      simp only [readKeyFileContent]
      rw [if_pos (And.intro h1 h2)]
      rw [truncateAtTerminator_eq_takeWhile]
      constructor
      · intro hv
        simp [hv]
      · intro hv
        simp [hv]
    · intro hbom hconv
      have hcond : ¬(a ≠ 0xFE ∧ a ≠ 0xFF) := by
        rcases hbom with h | h <;> simp [h]
      have hdrop : (a :: rest).drop 2 = rest.tail := by
        cases rest <;> simp
      rw [hdrop] at hconv
      simp only [readKeyFileContent]
      rw [if_neg hcond]
      by_cases h2 : (a :: rest).length % 2 ≠ 0
      · rw [if_pos h2]
      · rw [if_neg h2]
        by_cases h4 : (a :: rest).length < 4
        · rw [if_pos h4]
        · rw [if_neg h4]
          rw [hdrop]
          simp [passwordConvertUTF8, hconv]

/-- Witness for C8 at a concrete input: content `41 0A 42` truncates at
the LF and yields the one-byte prefix. -/
theorem claim_C8_witness :
    readKeyFileContent [0x41, 10, 0x42] =
      [0x41, 10, 0x42].takeWhile notTerminator :=
  ((claim_C8_utf8_truncation_and_malformation [0x41, 10, 0x42] 0x41 rfl).1
    (by decide) (by decide)).1 (by decide)

/-! ## Generating a key file (`GenerateKeyFile` in `key_file.cpp`)

The environment record carries the outcomes of the external effects the
function consults: whether the target is standard output, whether a
regular file already exists at the target, and whether opening and
writing succeed.  `random` is the CSPRNG octet stream. -/

structure GenEnv where
  usingStdout : Bool
  regularFileExists : Bool
  openOk : Bool
  writeOk : Bool

structure GenOutcome where
  ok : Bool
  zeroLengthErrorLogged : Bool
  fileCreated : Bool
  content : List Nat

/-- `GenerateKeyFile`: a zero key length is logged as an error but does
NOT abort the function; an existing regular file at the target refuses
to be overwritten; each random octet is mapped through `keyChar`; on a
write failure a newly created file is removed again. -/
def generateKeyFile (env : GenEnv) (key_size : Nat) (random : Nat → Nat) :
    GenOutcome :=
  let zeroLog := key_size == 0
  if !env.usingStdout && env.regularFileExists then
    ⟨false, zeroLog, false, []⟩
  else if !env.usingStdout && !env.openOk then
    ⟨false, zeroLog, false, []⟩
  else
    let key := (List.range key_size).map (fun i => keyChar (random i))
    if !env.writeOk then
      ⟨false, zeroLog, false, []⟩
    else
      ⟨true, zeroLog, !env.usingStdout, key⟩

theorem Key_Characters_range : ∀ b ∈ Key_Characters, 43 ≤ b ∧ b ≤ 122 := by
  decide

theorem getD_Key_Characters_mem :
    ∀ i < 64, Key_Characters.getD i 0 ∈ Key_Characters := by
  decide

theorem keyChar_mem (v : Nat) : keyChar v ∈ Key_Characters :=
  getD_Key_Characters_mem (v % 64) (Nat.mod_lt v (by norm_num))

theorem isUTF8Valid_ascii (l : List Nat) (h : ∀ b ∈ l, b ≤ 0x7F) :
    isUTF8Valid l = true := by
  unfold isUTF8Valid
  induction l with
  | nil => rfl
  | cons b rest ih =>
    have hb : b ≤ 0x7F := h b (by simp)
    simp only [isUTF8ValidAux]
    rw [if_pos hb]
    exact ih (fun x hx => h x (by simp [hx]))

theorem truncate_eq_self (l : List Nat)
    (h : ∀ b ∈ l, ¬(b = 0 ∨ b = 13 ∨ b = 10)) :
    truncateAtTerminator l = l := by
  induction l with
  | nil => rfl
  | cons b rest ih =>
    simp only [truncateAtTerminator]
    rw [if_neg (h b (by simp))]
    rw [ih (fun x hx => h x (by simp [hx]))]

/-- Content drawn entirely from the key-file alphabet reads back
unchanged: no BOM octet can appear, no terminator octet can appear, and
the content is plain ASCII, hence valid UTF-8. -/
theorem readKeyFileContent_of_alphabet (l : List Nat)
    (h : ∀ b ∈ l, b ∈ Key_Characters) : readKeyFileContent l = l := by
  have hrange : ∀ b ∈ l, 43 ≤ b ∧ b ≤ 122 :=
    fun b hb => Key_Characters_range b (h b hb)
  cases l with
  | nil => rfl
  | cons b0 rest =>
    have hb0 := hrange b0 (by simp)
    simp only [readKeyFileContent]
    rw [if_pos (show b0 ≠ 0xFE ∧ b0 ≠ 0xFF by omega)]
    rw [truncate_eq_self _ (fun b hb => by have := hrange b hb; omega)]
    rw [isUTF8Valid_ascii _ (fun b hb => by have := hrange b hb; omega)]
    simp

/-- Claim C6: for every octet count `n`, when no regular file exists at
the target and the file operations succeed, `GenerateKeyFile` succeeds
and writing then reading the key file round-trips to a key of exactly
`n` characters; each character is the `Key_Characters` entry selected
by the low six bits of the corresponding random octet, so every
character is drawn from the 64-symbol alphabet. -/
theorem claim_C6_generate_read_roundtrip (env : GenEnv) (n : Nat)
    (random : Nat → Nat)
    (hstd : env.usingStdout = false) (hex : env.regularFileExists = false)
    (hopen : env.openOk = true) (hwrite : env.writeOk = true) :
    (generateKeyFile env n random).ok = true ∧
    readKeyFileContent ((generateKeyFile env n random).content) =
      (List.range n).map (fun i => keyChar (random i)) ∧
    (readKeyFileContent ((generateKeyFile env n random).content)).length = n ∧
    ∀ b ∈ readKeyFileContent ((generateKeyFile env n random).content),
      b ∈ Key_Characters := by
  have hcontent : (generateKeyFile env n random).content =
      (List.range n).map (fun i => keyChar (random i)) := by
    simp [generateKeyFile, hstd, hex, hopen, hwrite]
  have halpha : ∀ b ∈ (generateKeyFile env n random).content,
      b ∈ Key_Characters := by
    rw [hcontent]
    intro b hb
    obtain ⟨i, _, rfl⟩ := List.mem_map.mp hb
    exact keyChar_mem _
  have hread : readKeyFileContent ((generateKeyFile env n random).content) =
      (generateKeyFile env n random).content :=
    readKeyFileContent_of_alphabet _ halpha
  refine ⟨by simp [generateKeyFile, hstd, hex, hopen, hwrite], ?_, ?_, ?_⟩
  · rw [hread, hcontent]
  · rw [hread, hcontent]
    simp
  · rw [hread]
    exact halpha

/-- Witness for C6 at a concrete input: a 5-octet key file generated
from the random stream 0,1,63,64,200. -/
theorem claim_C6_witness :
    (generateKeyFile ⟨false, false, true, true⟩ 5
        (fun i => [0, 1, 63, 64, 200].getD i 0)).ok = true ∧
    readKeyFileContent ((generateKeyFile ⟨false, false, true, true⟩ 5
        (fun i => [0, 1, 63, 64, 200].getD i 0)).content) =
      (List.range 5).map
        (fun i => keyChar ([0, 1, 63, 64, 200].getD i 0)) ∧
    (readKeyFileContent ((generateKeyFile ⟨false, false, true, true⟩ 5
        (fun i => [0, 1, 63, 64, 200].getD i 0)).content)).length = 5 ∧
    ∀ b ∈ readKeyFileContent ((generateKeyFile ⟨false, false, true, true⟩ 5
        (fun i => [0, 1, 63, 64, 200].getD i 0)).content),
      b ∈ Key_Characters :=
  claim_C6_generate_read_roundtrip ⟨false, false, true, true⟩ 5
    (fun i => [0, 1, 63, 64, 200].getD i 0) rfl rfl rfl rfl

/-- Claim C10: calling `GenerateKeyFile` with an octet count of zero on
a writable target at which no regular file exists logs an error about
the zero length but does not abort: the target file is still created,
zero key characters are written to it, and the function returns
success. -/
theorem claim_C10_zero_length_key (env : GenEnv) (random : Nat → Nat)
    (hstd : env.usingStdout = false) (hex : env.regularFileExists = false)
    (hopen : env.openOk = true) (hwrite : env.writeOk = true) :
    (generateKeyFile env 0 random).ok = true ∧
    (generateKeyFile env 0 random).zeroLengthErrorLogged = true ∧
    (generateKeyFile env 0 random).fileCreated = true ∧
    (generateKeyFile env 0 random).content = [] := by
  simp [generateKeyFile, hstd, hex, hopen, hwrite]

/-- Witness for C10 at a concrete environment. -/
theorem claim_C10_witness :
    (generateKeyFile ⟨false, false, true, true⟩ 0 (fun _ => 0)).ok = true ∧
    (generateKeyFile ⟨false, false, true, true⟩ 0
        (fun _ => 0)).zeroLengthErrorLogged = true ∧
    (generateKeyFile ⟨false, false, true, true⟩ 0
        (fun _ => 0)).fileCreated = true ∧
    (generateKeyFile ⟨false, false, true, true⟩ 0 (fun _ => 0)).content = [] :=
  claim_C10_zero_length_key ⟨false, false, true, true⟩ (fun _ => 0)
    rfl rfl rfl rfl

/-! ## Logical texts and their UTF-8 / UTF-16 encodings (for claim C5)

A logical text is a list of Unicode scalar values.  The encoders below
produce the byte content of a key file holding that text in UTF-8
(no BOM) or in BOM-tagged UTF-16 of either byte order. -/

/-- A Unicode scalar value: below U+110000 and not a surrogate. -/
def goodScalar (c : Nat) : Prop :=
  c < 0x110000 ∧ ¬(0xD800 ≤ c ∧ c ≤ 0xDFFF)

/-- UTF-8 encoding of a whole text. -/
def encodeUTF8 (text : List Nat) : List Nat :=
  text.flatMap encodeUTF8Char

/-- UTF-16 code units for one scalar: one unit below U+10000, else a
surrogate pair. -/
def encodeUTF16Units (c : Nat) : List Nat :=
  if c < 0x10000 then [c]
  else [0xD800 + (c - 0x10000) / 0x400, 0xDC00 + (c - 0x10000) % 0x400]

/-- Serialize UTF-16 code units as octets in the given byte order. -/
def utf16Bytes (little_endian : Bool) (units : List Nat) : List Nat :=
  units.flatMap
    (fun u => if little_endian then [u % 256, u / 256] else [u / 256, u % 256])

/-- Byte content of a key file holding `text` as UTF-8 (no BOM). -/
def utf8KeyFile (text : List Nat) : List Nat :=
  encodeUTF8 text

/-- Byte content of a key file holding `text` as UTF-16LE with BOM. -/
def utf16LEKeyFile (text : List Nat) : List Nat :=
  0xFF :: 0xFE :: utf16Bytes true (text.flatMap encodeUTF16Units)

/-- Byte content of a key file holding `text` as UTF-16BE with BOM. -/
def utf16BEKeyFile (text : List Nat) : List Nat :=
  0xFE :: 0xFF :: utf16Bytes false (text.flatMap encodeUTF16Units)

/-! ### The UTF-8 side: encoded good scalars validate -/

theorem isUTF8ValidAux_zero (lo hi : Nat) (l : List Nat) :
    isUTF8ValidAux 0 lo hi l = isUTF8ValidAux 0 0 0 l := by
  cases l <;> simp only [isUTF8ValidAux]

theorem isUTF8ValidAux_encodeChar (c : Nat) (hc : c < 0x110000)
    (hs : ¬(0xD800 ≤ c ∧ c ≤ 0xDFFF)) (rest : List Nat) :
    isUTF8ValidAux 0 0 0 (encodeUTF8Char c ++ rest) =
      isUTF8ValidAux 0 0 0 rest := by
  by_cases h1 : c < 0x80
  · simp only [encodeUTF8Char, if_pos h1, List.cons_append, List.nil_append]
    simp only [isUTF8ValidAux]
    rw [if_pos (show c ≤ 0x7F by omega)]
  · by_cases h2 : c < 0x800
    · simp only [encodeUTF8Char, if_neg h1, if_pos h2, List.cons_append,
        List.nil_append]
      simp only [isUTF8ValidAux]
      rw [if_neg (show ¬(0xC0 + c / 64 ≤ 0x7F) by omega)]
      rw [if_pos (show 0xC2 ≤ 0xC0 + c / 64 ∧ 0xC0 + c / 64 ≤ 0xDF by omega)]
      rw [if_pos (show 0x80 ≤ 0x80 + c % 64 ∧ 0x80 + c % 64 ≤ 0xBF by omega)]
      exact isUTF8ValidAux_zero _ _ _
    · by_cases h3 : c < 0x10000
      · simp only [encodeUTF8Char, if_neg h1, if_neg h2, if_pos h3,
          List.cons_append, List.nil_append]
        simp only [isUTF8ValidAux]
        rw [if_neg (show ¬(0xE0 + c / 4096 ≤ 0x7F) by omega)]
        rw [if_neg (show ¬(0xC2 ≤ 0xE0 + c / 4096 ∧ 0xE0 + c / 4096 ≤ 0xDF)
          by omega)]
        by_cases hA : c < 0x1000
        · rw [if_pos (show 0xE0 + c / 4096 = 0xE0 by omega)]
          rw [if_pos (show 0xA0 ≤ 0x80 + c / 64 % 64 ∧ 0x80 + c / 64 % 64 ≤ 0xBF
              by omega)]
          rw [if_pos (show 0x80 ≤ 0x80 + c % 64 ∧ 0x80 + c % 64 ≤ 0xBF by omega)]
          exact isUTF8ValidAux_zero _ _ _
        · rw [if_neg (show ¬(0xE0 + c / 4096 = 0xE0) by omega)]
          by_cases hB : c < 0xD000
          · rw [if_pos (Or.inl (show 0xE1 ≤ 0xE0 + c / 4096 ∧
              0xE0 + c / 4096 ≤ 0xEC by omega))]
            rw [if_pos (show 0x80 ≤ 0x80 + c / 64 % 64 ∧ 0x80 + c / 64 % 64 ≤ 0xBF
                by omega)]
            rw [if_pos (show 0x80 ≤ 0x80 + c % 64 ∧ 0x80 + c % 64 ≤ 0xBF by omega)]
            exact isUTF8ValidAux_zero _ _ _
          · by_cases hC : c < 0xE000
            · have hcd : c < 0xD800 := by omega
              rw [if_neg (show ¬((0xE1 ≤ 0xE0 + c / 4096 ∧
                  0xE0 + c / 4096 ≤ 0xEC) ∨ 0xE0 + c / 4096 = 0xEE ∨
                  0xE0 + c / 4096 = 0xEF) by omega)]
              rw [if_pos (show 0xE0 + c / 4096 = 0xED by omega)]
              rw [if_pos (show 0x80 ≤ 0x80 + c / 64 % 64 ∧ 0x80 + c / 64 % 64 ≤ 0x9F
                  by omega)]
              rw [if_pos (show 0x80 ≤ 0x80 + c % 64 ∧ 0x80 + c % 64 ≤ 0xBF by omega)]
              exact isUTF8ValidAux_zero _ _ _
            · rw [if_pos (show (0xE1 ≤ 0xE0 + c / 4096 ∧
                0xE0 + c / 4096 ≤ 0xEC) ∨ 0xE0 + c / 4096 = 0xEE ∨
                0xE0 + c / 4096 = 0xEF by omega)]
              rw [if_pos (show 0x80 ≤ 0x80 + c / 64 % 64 ∧ 0x80 + c / 64 % 64 ≤ 0xBF
                  by omega)]
              rw [if_pos (show 0x80 ≤ 0x80 + c % 64 ∧ 0x80 + c % 64 ≤ 0xBF by omega)]
              exact isUTF8ValidAux_zero _ _ _
      · simp only [encodeUTF8Char, if_neg h1, if_neg h2, if_neg h3,
          List.cons_append, List.nil_append]
        simp only [isUTF8ValidAux]
        rw [if_neg (show ¬(0xF0 + c / 0x40000 ≤ 0x7F) by omega)]
        rw [if_neg (show ¬(0xC2 ≤ 0xF0 + c / 0x40000 ∧
          0xF0 + c / 0x40000 ≤ 0xDF) by omega)]
        rw [if_neg (show ¬(0xF0 + c / 0x40000 = 0xE0) by omega)]
        rw [if_neg (show ¬((0xE1 ≤ 0xF0 + c / 0x40000 ∧
          0xF0 + c / 0x40000 ≤ 0xEC) ∨ 0xF0 + c / 0x40000 = 0xEE ∨
          0xF0 + c / 0x40000 = 0xEF) by omega)]
        rw [if_neg (show ¬(0xF0 + c / 0x40000 = 0xED) by omega)]
        by_cases hA : c < 0x40000
        · rw [if_pos (show 0xF0 + c / 0x40000 = 0xF0 by omega)]
          rw [if_pos (show 0x90 ≤ 0x80 + c / 4096 % 64 ∧ 0x80 + c / 4096 % 64 ≤ 0xBF
              by omega)]
          rw [if_pos (show 0x80 ≤ 0x80 + c / 64 % 64 ∧ 0x80 + c / 64 % 64 ≤ 0xBF
              by omega)]
          rw [if_pos (show 0x80 ≤ 0x80 + c % 64 ∧ 0x80 + c % 64 ≤ 0xBF by omega)]
          exact isUTF8ValidAux_zero _ _ _
        · rw [if_neg (show ¬(0xF0 + c / 0x40000 = 0xF0) by omega)]
          by_cases hB : c < 0x100000
          · rw [if_pos (show 0xF1 ≤ 0xF0 + c / 0x40000 ∧
              0xF0 + c / 0x40000 ≤ 0xF3 by omega)]
            rw [if_pos (show 0x80 ≤ 0x80 + c / 4096 % 64 ∧ 0x80 + c / 4096 % 64 ≤ 0xBF
                by omega)]
            rw [if_pos (show 0x80 ≤ 0x80 + c / 64 % 64 ∧ 0x80 + c / 64 % 64 ≤ 0xBF
                by omega)]
            rw [if_pos (show 0x80 ≤ 0x80 + c % 64 ∧ 0x80 + c % 64 ≤ 0xBF by omega)]
            exact isUTF8ValidAux_zero _ _ _
          · rw [if_neg (show ¬(0xF1 ≤ 0xF0 + c / 0x40000 ∧
              0xF0 + c / 0x40000 ≤ 0xF3) by omega)]
            rw [if_pos (show 0xF0 + c / 0x40000 = 0xF4 by omega)]
            rw [if_pos (show 0x80 ≤ 0x80 + c / 4096 % 64 ∧ 0x80 + c / 4096 % 64 ≤ 0x8F
                by omega)]
            rw [if_pos (show 0x80 ≤ 0x80 + c / 64 % 64 ∧ 0x80 + c / 64 % 64 ≤ 0xBF
                by omega)]
            rw [if_pos (show 0x80 ≤ 0x80 + c % 64 ∧ 0x80 + c % 64 ≤ 0xBF by omega)]
            exact isUTF8ValidAux_zero _ _ _

theorem isUTF8Valid_encodeUTF8 (text : List Nat)
    (h : ∀ c ∈ text, goodScalar c) : isUTF8Valid (encodeUTF8 text) = true := by
  unfold isUTF8Valid
  induction text with
  | nil => rfl
  | cons c rest ih =>
    have hc := h c (by simp)
    rw [show encodeUTF8 (c :: rest) = encodeUTF8Char c ++ encodeUTF8 rest by
      simp [encodeUTF8]]
    rw [isUTF8ValidAux_encodeChar c hc.1 hc.2]
    exact ih (fun x hx => h x (by simp [hx]))

/-! ### The UTF-16 side: serialization and decoding round-trip -/

theorem utf16Bytes_cons (le : Bool) (u : Nat) (rest : List Nat) :
    utf16Bytes le (u :: rest) =
      (if le then [u % 256, u / 256] else [u / 256, u % 256]) ++
        utf16Bytes le rest := by
  simp [utf16Bytes]

theorem utf16Bytes_length (le : Bool) (units : List Nat) :
    (utf16Bytes le units).length = 2 * units.length := by
  induction units with
  | nil => cases le <;> rfl
  | cons u rest ih =>
    rw [utf16Bytes_cons]
    cases le <;> simp [ih] <;> omega

theorem utf16CodeUnits_utf16Bytes (le : Bool) (units : List Nat) :
    utf16CodeUnits le (utf16Bytes le units) = units := by
  induction units with
  | nil => cases le <;> rfl
  | cons u rest ih =>
    rw [utf16Bytes_cons]
    cases le with
    | false =>
      simp [utf16CodeUnits, ih]
      omega
    | true =>
      simp [utf16CodeUnits, ih]
      omega

theorem decodeUTF16Aux_encodeUnits (text : List Nat)
    (h : ∀ c ∈ text, goodScalar c) :
    decodeUTF16Aux none (text.flatMap encodeUTF16Units) = some text := by
  induction text with
  | nil => rfl
  | cons c rest ih =>
    have hc1 : c < 0x110000 := (h c (by simp)).1
    have hc2 : ¬(0xD800 ≤ c ∧ c ≤ 0xDFFF) := (h c (by simp)).2
    have ih' := ih (fun x hx => h x (by simp [hx]))
    rw [List.flatMap_cons]
    by_cases hlow : c < 0x10000
    · rw [show encodeUTF16Units c = [c] by simp [encodeUTF16Units, hlow]]
      simp only [List.cons_append, List.nil_append]
      simp only [decodeUTF16Aux]
      rw [if_pos (show c < 0xD800 ∨ 0xDFFF < c by omega)]
      rw [ih']
      rfl
    · rw [show encodeUTF16Units c =
        [0xD800 + (c - 0x10000) / 0x400, 0xDC00 + (c - 0x10000) % 0x400] by
          simp [encodeUTF16Units, hlow]]
      simp only [List.cons_append, List.nil_append]
      simp only [decodeUTF16Aux]
      rw [if_neg (show ¬(0xD800 + (c - 0x10000) / 0x400 < 0xD800 ∨
        0xDFFF < 0xD800 + (c - 0x10000) / 0x400) by omega)]
      rw [if_pos (show 0xD800 + (c - 0x10000) / 0x400 ≤ 0xDBFF by omega)]
      rw [if_pos (show 0xDC00 ≤ 0xDC00 + (c - 0x10000) % 0x400 ∧
        0xDC00 + (c - 0x10000) % 0x400 ≤ 0xDFFF by omega)]
      rw [ih']
      simp only [Option.map_some', Option.some.injEq, List.cons.injEq,
        and_true]
      omega

theorem decodeUTF16_encodeUnits (text : List Nat)
    (h : ∀ c ∈ text, goodScalar c) :
    decodeUTF16 (text.flatMap encodeUTF16Units) = some text :=
  decodeUTF16Aux_encodeUnits text h

theorem convertUTF16ToUTF8_encode (le : Bool) (text : List Nat)
    (h : ∀ c ∈ text, goodScalar c) :
    convertUTF16ToUTF8 (utf16Bytes le (text.flatMap encodeUTF16Units)) le =
      some (encodeUTF8 text) := by
  unfold convertUTF16ToUTF8
  rw [utf16CodeUnits_utf16Bytes, decodeUTF16_encodeUnits text h]
  rfl

/-! ### Octet-level facts about the UTF-8 encoder -/

theorem encodeUTF8Char_ne_nil (c : Nat) : encodeUTF8Char c ≠ [] := by
  unfold encodeUTF8Char
  split_ifs <;> exact List.cons_ne_nil _ _

theorem encodeUTF8Char_bytes_lt (c : Nat) (hc : c < 0x110000) :
    ∀ b ∈ encodeUTF8Char c, b < 0xFE := by
  unfold encodeUTF8Char
  split_ifs with g1 g2 g3 <;> intro b hb <;> simp at hb
  · omega
  · rcases hb with rfl | rfl <;> omega
  · rcases hb with rfl | rfl | rfl <;> omega
  · rcases hb with rfl | rfl | rfl | rfl <;> omega

theorem encodeUTF8Char_no_terminator (c : Nat) (h0 : c ≠ 0) (h10 : c ≠ 10)
    (h13 : c ≠ 13) : ∀ b ∈ encodeUTF8Char c, ¬(b = 0 ∨ b = 13 ∨ b = 10) := by
  unfold encodeUTF8Char
  split_ifs with g1 g2 g3 <;> intro b hb <;> simp at hb
  · omega
  · rcases hb with rfl | rfl <;> omega
  · rcases hb with rfl | rfl | rfl <;> omega
  · rcases hb with rfl | rfl | rfl | rfl <;> omega

theorem encodeUTF8_ne_nil (text : List Nat) (h : text ≠ []) :
    encodeUTF8 text ≠ [] := by
  cases text with
  | nil => exact absurd rfl h
  | cons c rest =>
    simp only [encodeUTF8, List.flatMap_cons]
    intro hcontra
    exact encodeUTF8Char_ne_nil c (List.append_eq_nil.mp hcontra).1

theorem encodeUTF16Units_ne_nil (c : Nat) : encodeUTF16Units c ≠ [] := by
  unfold encodeUTF16Units
  split_ifs <;> exact List.cons_ne_nil _ _

theorem flatMap_encodeUTF16Units_ne_nil (text : List Nat) (h : text ≠ []) :
    text.flatMap encodeUTF16Units ≠ [] := by
  cases text with
  | nil => exact absurd rfl h
  | cons c rest =>
    simp only [List.flatMap_cons]
    intro hcontra
    exact encodeUTF16Units_ne_nil c (List.append_eq_nil.mp hcontra).1

/-- Claim C5: for every pair of valid key files encoding the same
logical text, one as UTF-8 and the other as BOM-tagged UTF-16 (little-
or big-endian), `ReadKeyFile` returns byte-for-byte identical UTF-8 key
material: all three files read back as the UTF-8 encoding of the text.
A valid key file holds a nonempty text of Unicode scalar values none of
which is NUL, LF or CR (those octets terminate a UTF-8 key). -/
theorem claim_C5_keyfile_encoding_agreement (text : List Nat)
    (hne : text ≠ [])
    (hgood : ∀ c ∈ text, goodScalar c)
    (hterm : ∀ c ∈ text, c ≠ 0 ∧ c ≠ 10 ∧ c ≠ 13) :
    readKeyFileContent (utf8KeyFile text) = encodeUTF8 text ∧
    readKeyFileContent (utf16LEKeyFile text) = encodeUTF8 text ∧
    readKeyFileContent (utf16BEKeyFile text) = encodeUTF8 text := by
  have hmem : ∀ b ∈ encodeUTF8 text, b < 0xFE ∧ ¬(b = 0 ∨ b = 13 ∨ b = 10) := by
    intro b hb
    obtain ⟨c, hc, hbc⟩ := List.mem_flatMap.mp hb
    have hg := hgood c hc
    have ht := hterm c hc
    exact ⟨encodeUTF8Char_bytes_lt c hg.1 b hbc,
           encodeUTF8Char_no_terminator c ht.1 ht.2.1 ht.2.2 b hbc⟩
  have hvalid : isUTF8Valid (encodeUTF8 text) = true :=
    isUTF8Valid_encodeUTF8 text hgood
  have htrunc : truncateAtTerminator (encodeUTF8 text) = encodeUTF8 text :=
    truncate_eq_self _ (fun b hb => (hmem b hb).2)
  have hU := flatMap_encodeUTF16Units_ne_nil text hne
  have hUlen : 0 < (text.flatMap encodeUTF16Units).length :=
    List.length_pos.mpr hU
  have hEne := encodeUTF8_ne_nil text hne
  refine ⟨?_, ?_, ?_⟩
  · unfold utf8KeyFile
    rcases hE : encodeUTF8 text with _ | ⟨b0, bs⟩
    · exact absurd hE hEne
    · have hb0 : b0 < 0xFE := (hmem b0 (by rw [hE]; simp)).1
      simp only [readKeyFileContent]
      rw [if_pos (show b0 ≠ 0xFE ∧ b0 ≠ 0xFF by omega)]
      rw [← hE, htrunc, hvalid]
      simp
  · unfold utf16LEKeyFile
    have hblen : (utf16Bytes true (text.flatMap encodeUTF16Units)).length =
        2 * (text.flatMap encodeUTF16Units).length := utf16Bytes_length _ _
    simp only [readKeyFileContent]
    rw [if_neg (show ¬((0xFF : Nat) ≠ 0xFE ∧ (0xFF : Nat) ≠ 0xFF) by simp)]
    rw [if_neg (show ¬((0xFF :: 0xFE :: utf16Bytes true
        (text.flatMap encodeUTF16Units) : List Nat).length % 2 ≠ 0) by
      simp only [List.length_cons, hblen]; omega)]
    rw [if_neg (show ¬((0xFF :: 0xFE :: utf16Bytes true
        (text.flatMap encodeUTF16Units) : List Nat).length < 4) by
      simp only [List.length_cons, hblen]; omega)]
    show passwordConvertUTF8 (utf16Bytes true (text.flatMap encodeUTF16Units))
        ((0xFF : Nat) == 0xFF) = encodeUTF8 text
    rw [show ((0xFF : Nat) == 0xFF) = true from rfl]
    unfold passwordConvertUTF8
    rw [if_neg (show ¬((utf16Bytes true
        (text.flatMap encodeUTF16Units)).length % 2 ≠ 0) by
      rw [hblen]; omega)]
    rw [convertUTF16ToUTF8_encode true text hgood]
    simp [hEne]
  · unfold utf16BEKeyFile
    have hblen : (utf16Bytes false (text.flatMap encodeUTF16Units)).length =
        2 * (text.flatMap encodeUTF16Units).length := utf16Bytes_length _ _
    simp only [readKeyFileContent]
    rw [if_neg (show ¬((0xFE : Nat) ≠ 0xFE ∧ (0xFE : Nat) ≠ 0xFF) by simp)]
    rw [if_neg (show ¬((0xFE :: 0xFF :: utf16Bytes false
        (text.flatMap encodeUTF16Units) : List Nat).length % 2 ≠ 0) by
      simp only [List.length_cons, hblen]; omega)]
    rw [if_neg (show ¬((0xFE :: 0xFF :: utf16Bytes false
        (text.flatMap encodeUTF16Units) : List Nat).length < 4) by
      simp only [List.length_cons, hblen]; omega)]
    show passwordConvertUTF8 (utf16Bytes false (text.flatMap encodeUTF16Units))
        ((0xFE : Nat) == 0xFF) = encodeUTF8 text
    rw [show ((0xFE : Nat) == 0xFF) = false from rfl]
    unfold passwordConvertUTF8
    rw [if_neg (show ¬((utf16Bytes false
        (text.flatMap encodeUTF16Units)).length % 2 ≠ 0) by
      rw [hblen]; omega)]
    rw [convertUTF16ToUTF8_encode false text hgood]
    simp [hEne]

instance goodScalar_decidable (c : Nat) : Decidable (goodScalar c) := by
  unfold goodScalar
  infer_instance

/-- Witness for C5 at a concrete text: "Aé€𝄞" exercises the 1-, 2-, 3-
and 4-octet UTF-8 forms and a surrogate pair on the UTF-16 side. -/
theorem claim_C5_witness :
    readKeyFileContent (utf8KeyFile [0x41, 0xE9, 0x20AC, 0x1D11E]) =
      encodeUTF8 [0x41, 0xE9, 0x20AC, 0x1D11E] ∧
    readKeyFileContent (utf16LEKeyFile [0x41, 0xE9, 0x20AC, 0x1D11E]) =
      encodeUTF8 [0x41, 0xE9, 0x20AC, 0x1D11E] ∧
    readKeyFileContent (utf16BEKeyFile [0x41, 0xE9, 0x20AC, 0x1D11E]) =
      encodeUTF8 [0x41, 0xE9, 0x20AC, 0x1D11E] :=
  claim_C5_keyfile_encoding_agreement [0x41, 0xE9, 0x20AC, 0x1D11E]
    (by decide) (by decide) (by decide)

/-! ## Default output-name resolution
(`EncryptFiles` lines 384-397, `DecryptFiles` lines 436-455, and
`HasAESExtension` from `decrypt_files.cpp`) -/

/-- The reserved name for standard input / standard output. -/
def dashName : List Char := ['-']

/-- The conventional encrypted-file suffix ".aes". -/
def dotAES : List Char := ['.', 'a', 'e', 's']

/-- Output name for one encrypted file: for a non-stdin input with no
explicit output file, the input name with ".aes" appended. -/
def encryptOutputName (output_file in_file : List Char) : List Char :=
  if in_file ≠ dashName then
    if output_file = [] then in_file ++ dotAES else output_file
  else output_file

inductive DecryptNameError
  | mustSpecifyOutputName
deriving DecidableEq

/-- Output name for one decrypted file: for a non-stdin input with no
explicit output file, the input name with its last four characters
stripped (`out_file.resize(out_file.size() - 4)`); if that leaves an
empty name the user must specify an output file. -/
def decryptOutputName (output_file in_file : List Char) :
    Except DecryptNameError (List Char) :=
  if in_file ≠ dashName then
    if output_file = [] then
      let out := in_file.take (in_file.length - 4)
      if out = [] then Except.error DecryptNameError.mustSpecifyOutputName
      else Except.ok out
    else Except.ok output_file
  else Except.ok output_file

/-- `std::filesystem::path::filename()`: the component after the last
directory separator. -/
def pathFilename (p : List Char) : List Char :=
  (p.reverse.takeWhile (fun c => c != '/')).reverse

/-- `std::filesystem::path::extension()`: the substring of the filename
from its last period, except that "." and ".." and a filename whose
only period is its leading character have no extension. -/
def pathExtension (p : List Char) : List Char :=
  let f := pathFilename p
  if f = ['.', '.'] then []
  else
    let after := f.reverse.takeWhile (fun c => c != '.')
    let k := f.length - after.length
    if k ≤ 1 then [] else f.drop (k - 1)

/-- `HasAESExtension` from `decrypt_files.cpp`: the path's extension is
exactly four characters matching ".aes" case-insensitively. -/
def hasAESExtension (filename : List Char) : Bool :=
  let ext := pathExtension filename
  if ext.length ≠ 4 then false
  else
    decide (ext.getD 0 ' ' = '.') &&
    decide (ext.getD 1 ' ' = 'a' ∨ ext.getD 1 ' ' = 'A') &&
    decide (ext.getD 2 ' ' = 'e' ∨ ext.getD 2 ' ' = 'E') &&
    decide (ext.getD 3 ' ' = 's' ∨ ext.getD 3 ' ' = 'S')

example : hasAESExtension ['a', '.', 'a', 'e', 's'] = true := by decide
example : hasAESExtension ['.', 'a', 'e', 's'] = false := by decide
example : hasAESExtension ['b', '.', 'A', 'E', 'S'] = true := by decide

theorem pathFilename_suffix (p : List Char) : pathFilename p <:+ p := by
  have h := List.takeWhile_prefix (l := p.reverse) (fun c => c != '/')
  exact List.reverse_prefix.mp (by simpa [pathFilename] using h)

theorem pathExtension_suffix (p : List Char) : pathExtension p <:+ p := by
  unfold pathExtension
  dsimp only
  split_ifs
  · exact List.nil_suffix
  · exact List.nil_suffix
  · exact (List.drop_suffix _ _).trans (pathFilename_suffix p)

theorem hasAES_ext_facts (q : List Char) (h : hasAESExtension q = true) :
    (pathExtension q).length = 4 ∧
    pathExtension q = q.drop (q.length - 4) ∧ 4 ≤ q.length := by
  have hlen : (pathExtension q).length = 4 := by
    by_contra hne
    unfold hasAESExtension at h
    rw [if_pos hne] at h
    exact Bool.false_ne_true h
  have hsuf := pathExtension_suffix q
  have heq := List.suffix_iff_eq_drop.mp hsuf
  rw [hlen] at heq
  refine ⟨hlen, heq, ?_⟩
  have := hsuf.length_le
  omega

theorem hasAES_length_gt (q : List Char) (h : hasAESExtension q = true) :
    4 < q.length := by
  obtain ⟨hlen, heq, hge⟩ := hasAES_ext_facts q h
  rcases Nat.lt_or_ge 4 q.length with hgt | hle
  · exact hgt
  · have hq4 : q.length = 4 := by omega
    have hext_q : pathExtension q = q := by
      rw [heq, hq4]
      simp
    unfold hasAESExtension at h
    rw [if_neg (show ¬((pathExtension q).length ≠ 4) by simp [hlen])] at h
    rw [hext_q] at h
    simp only [Bool.and_eq_true, decide_eq_true_eq] at h
    rcases q with _ | ⟨c0, _ | ⟨c1, _ | ⟨c2, _ | ⟨c3, _ | ⟨c4, qrest⟩⟩⟩⟩⟩
    · simp at hq4
    · simp at hq4
    · simp at hq4
    · simp at hq4
    · simp only [List.getD_cons_zero, List.getD_cons_succ] at h
      obtain ⟨⟨⟨h0, h1⟩, h2⟩, h3⟩ := h
      subst h0
      rcases h1 with rfl | rfl <;> rcases h2 with rfl | rfl <;>
        rcases h3 with rfl | rfl <;> exact absurd hext_q (by decide)
    · exfalso
      simp only [List.length_cons] at hq4
      omega

/-- Claim C7: with no explicit output path, encrypting input `p`
(`p` not "-") writes to `p ++ ".aes"`; decrypting an input `q` that
carries the 4-character ".aes" extension writes to `q` with that
4-character suffix stripped (the stripped characters being exactly the
extension); and an input that is nothing but the 4-character suffix
resolves to an error telling the caller to supply an explicit output
name. -/
theorem claim_C7_default_output_names :
    (∀ p : List Char, p ≠ dashName →
      encryptOutputName [] p = p ++ dotAES) ∧
    (∀ q : List Char, q ≠ dashName → hasAESExtension q = true →
      decryptOutputName [] q = Except.ok (q.take (q.length - 4)) ∧
      q.take (q.length - 4) ++ pathExtension q = q ∧
      (pathExtension q).length = 4) ∧
    (∀ q : List Char, q ≠ dashName → q.length = 4 →
      decryptOutputName [] q =
        Except.error DecryptNameError.mustSpecifyOutputName) := by
  refine ⟨?_, ?_, ?_⟩
  · intro p hp
    unfold encryptOutputName
    rw [if_pos hp, if_pos rfl]
  · intro q hq haes
    obtain ⟨hlen, heq, _⟩ := hasAES_ext_facts q haes
    have hgt := hasAES_length_gt q haes
    have htake_ne : q.take (q.length - 4) ≠ [] := by
      intro hcontra
      have := congrArg List.length hcontra
      simp only [List.length_take, List.length_nil] at this
      omega
    refine ⟨?_, ?_, hlen⟩
    · unfold decryptOutputName
      rw [if_pos hq, if_pos rfl]
      dsimp only
      rw [if_neg htake_ne]
    · rw [heq]
      exact List.take_append_drop _ q
  · intro q hq hq4
    unfold decryptOutputName
    rw [if_pos hq, if_pos rfl]
    dsimp only
    rw [if_pos (show q.take (q.length - 4) = [] by rw [hq4]; simp)]

/-- Witness for C7 at the spec's own examples: "report.txt" encrypts to
"report.txt.aes", "report.txt.aes" decrypts to "report.txt", and the
bare name ".aes" is an error. -/
theorem claim_C7_witness :
    encryptOutputName [] ['r', 'e', 'p', 'o', 'r', 't', '.', 't', 'x', 't'] =
      ['r', 'e', 'p', 'o', 'r', 't', '.', 't', 'x', 't'] ++ dotAES ∧
    (decryptOutputName []
        ['r', 'e', 'p', 'o', 'r', 't', '.', 't', 'x', 't', '.', 'a', 'e', 's'] =
      Except.ok
        (['r', 'e', 'p', 'o', 'r', 't', '.', 't', 'x', 't', '.', 'a', 'e',
          's'].take
          (['r', 'e', 'p', 'o', 'r', 't', '.', 't', 'x', 't', '.', 'a', 'e',
            's'].length - 4)) ∧
      ['r', 'e', 'p', 'o', 'r', 't', '.', 't', 'x', 't', '.', 'a', 'e',
        's'].take
          (['r', 'e', 'p', 'o', 'r', 't', '.', 't', 'x', 't', '.', 'a', 'e',
            's'].length - 4) ++
        pathExtension
          ['r', 'e', 'p', 'o', 'r', 't', '.', 't', 'x', 't', '.', 'a', 'e',
            's'] =
        ['r', 'e', 'p', 'o', 'r', 't', '.', 't', 'x', 't', '.', 'a', 'e',
          's'] ∧
      (pathExtension
          ['r', 'e', 'p', 'o', 'r', 't', '.', 't', 'x', 't', '.', 'a', 'e',
            's']).length = 4) ∧
    decryptOutputName [] ['.', 'a', 'e', 's'] =
      Except.error DecryptNameError.mustSpecifyOutputName :=
  ⟨claim_C7_default_output_names.1 _ (by decide),
   claim_C7_default_output_names.2.1 _ (by decide) (by decide),
   claim_C7_default_output_names.2.2 _ (by decide) (by decide)⟩

/-! ## Output-path preconditions and failure cleanup
(`EncryptFiles` lines 408-504 and 525-571, and the same logic in
`DecryptFiles`) -/

inductive FSEntry
  | regular
  | directory
  | special
deriving DecidableEq

/-- A filesystem: what kind of entry, if any, each path names. -/
def FS : Type :=
  List Char → Option FSEntry

/-- The output-path checks performed before opening the output stream:
"-" bypasses every check; an existing directory is an error; the
`remove_on_fail` flag is set exactly when no entry exists at the path;
an existing regular file is an error (no silent overwrite); any other
existing entry (a special device, say) is accepted without setting the
flag.  Returns the `remove_on_fail` disposition. -/
def resolveOutputRemoveFlag (fs : FS) (out : List Char) : Except Unit Bool :=
  if out = dashName then Except.ok false
  else if fs out = some FSEntry.directory then Except.error ()
  else
    let remove_on_fail := decide (fs out = none)
    if fs out = some FSEntry.regular then Except.error ()
    else Except.ok remove_on_fail

/-- Opening the output stream creates a regular file where nothing
existed; an existing entry keeps its kind. -/
def openOutputFS (fs : FS) (out : List Char) : FS :=
  if out = dashName then fs
  else fun p =>
    if p = out then
      match fs out with
      | none => some FSEntry.regular
      | some e => some e
    else fs p

/-- After a failed encryption/decryption, `std::filesystem::remove` is
invoked on the output path exactly when `remove_on_fail` was set. -/
def cleanupOnFail (fs : FS) (out : List Char) (remove_on_fail : Bool) : FS :=
  if remove_on_fail then fun p => if p = out then none else fs p
  else fs

/-- Claim C2: for a non-"-" output path, `remove_on_fail` is set iff no
filesystem entry existed at the path during resolution; after a failing
job the output path is removed exactly when the flag was set; and an
output path naming a pre-existing non-regular entry (e.g. a device
node) resolves with the flag clear and is never deleted. -/
theorem claim_C2_remove_on_fail (fs : FS) (out : List Char)
    (hout : out ≠ dashName) :
    (resolveOutputRemoveFlag fs out = Except.ok true ↔ fs out = none) ∧
    (∀ b, resolveOutputRemoveFlag fs out = Except.ok b →
      cleanupOnFail (openOutputFS fs out) out b out =
        (if b then none else fs out)) ∧
    (fs out = some FSEntry.special →
      resolveOutputRemoveFlag fs out = Except.ok false ∧
      cleanupOnFail (openOutputFS fs out) out false out =
        some FSEntry.special) := by
  refine ⟨?_, ?_, ?_⟩
  · unfold resolveOutputRemoveFlag
    rw [if_neg hout]
    rcases hfs : fs out with _ | e
    · simp [hfs]
    · cases e <;> simp [hfs]
  · intro b hres
    unfold resolveOutputRemoveFlag at hres
    rw [if_neg hout] at hres
    rcases hfs : fs out with _ | e
    · rw [hfs] at hres
      simp only [reduceCtorEq, if_neg, Except.ok.injEq] at hres
      simp at hres
      subst hres
      simp [cleanupOnFail, openOutputFS, hout, hfs]
    · rw [hfs] at hres
      cases e
      · simp at hres
      · simp at hres
      · simp at hres
        subst hres
        simp [cleanupOnFail, openOutputFS, hout, hfs]
  · intro hsp
    constructor
    · unfold resolveOutputRemoveFlag
      rw [if_neg hout]
      simp [hsp]
    · simp [cleanupOnFail, openOutputFS, hout, hsp]

/-- A small filesystem for the C2 witness: a special device lives at
path "d" and nothing else exists. -/
def exampleFS : FS :=
  fun p => if p = ['d'] then some FSEntry.special else none

/-- Witness for C2 at a concrete filesystem and output path. -/
theorem claim_C2_witness :
    (resolveOutputRemoveFlag exampleFS ['o'] = Except.ok true ↔
      exampleFS ['o'] = none) ∧
    (∀ b, resolveOutputRemoveFlag exampleFS ['o'] = Except.ok b →
      cleanupOnFail (openOutputFS exampleFS ['o']) ['o'] b ['o'] =
        (if b then none else exampleFS ['o'])) ∧
    (exampleFS ['o'] = some FSEntry.special →
      resolveOutputRemoveFlag exampleFS ['o'] = Except.ok false ∧
      cleanupOnFail (openOutputFS exampleFS ['o']) ['o'] false ['o'] =
        some FSEntry.special) :=
  claim_C2_remove_on_fail exampleFS ['o'] (by decide)

/-! ## Batch iteration, early stop and aggregation
(`EncryptFiles` lines 260-580, `DecryptFiles` lines 312-641: both share
the same per-file loop skeleton) -/

/-- One file of a batch, together with the outcome the loop body
produces for it: `succeeded` is the combined result of resolution,
stream opening and the engine call for this file, and `terminateAfter`
is the value of `process_control.terminate` checked after the file. -/
structure FileStep (α : Type) where
  file : α
  succeeded : Bool
  terminateAfter : Bool

/-- The per-file loop of `EncryptFiles`/`DecryptFiles`: process files
in order; return false immediately when a file fails (after its
cleanup), or after any file when termination was requested; return
true only when the whole list was processed.  The first component
collects the files the loop actually attempted. -/
def batchLoop {α : Type} : List (FileStep α) → List α × Bool
  | [] => ([], true)
  | s :: rest =>
    if s.succeeded = false then ([s.file], false)
    else if s.terminateAfter = true then ([s.file], false)
    else
      let r := batchLoop rest
      (s.file :: r.1, r.2)

/-- Claim C3: the batch returns true iff every file succeeded and
termination was never observed, and the files actually attempted are
exactly the prefix of the list up to and including the first file that
fails or after which termination is observed (every later file is left
untouched). -/
theorem claim_C3_batch_first_failure (α : Type) (steps : List (FileStep α)) :
    ((batchLoop steps).2 = true ↔
      ∀ s ∈ steps, s.succeeded = true ∧ s.terminateAfter = false) ∧
    (batchLoop steps).1 =
      (steps.map FileStep.file).take
        (steps.findIdx (fun s => !s.succeeded || s.terminateAfter) + 1) := by
  induction steps with
  | nil => simp [batchLoop]
  | cons s rest ih =>
    by_cases hs : s.succeeded = false
    · constructor
      · simp only [batchLoop, if_pos hs]
        constructor
        · intro hfalse
          exact absurd hfalse (by simp)
        · intro hall
          exact absurd ((hall s (by simp)).1) (by simp [hs])
      · simp [batchLoop, hs, List.findIdx_cons]
    · have hs' : s.succeeded = true := by
        cases h : s.succeeded
        · exact absurd h hs
        · rfl
      by_cases ht : s.terminateAfter = true
      · constructor
        · simp only [batchLoop, if_neg hs, if_pos ht]
          constructor
          · intro hfalse
            exact absurd hfalse (by simp)
          · intro hall
            exact absurd ((hall s (by simp)).2) (by simp [ht])
        · simp [batchLoop, hs, hs', ht, List.findIdx_cons]
      · have ht' : s.terminateAfter = false := by
          cases h : s.terminateAfter
          · rfl
          · exact absurd h ht
        constructor
        · simp only [batchLoop, if_neg hs, if_neg ht]
          rw [ih.1]
          constructor
          · intro hall
            intro x hx
            rcases List.mem_cons.mp hx with rfl | hx'
            · exact ⟨hs', ht'⟩
            · exact hall x hx'
          · intro hall x hx
            exact hall x (List.mem_cons_of_mem _ hx)
        · simp only [batchLoop, if_neg hs, if_neg ht]
          rw [List.findIdx_cons]
          simp only [hs', ht', Bool.not_true, Bool.false_or, cond_false]
          simp only [List.map_cons, List.take_succ_cons]
          rw [ih.2]

/-! ## The cancellable worker controller
(`EncryptStream` lines 145-185, `DecryptStream` lines 176-217)

After the condition-variable wait returns, the controller runs a fixed
straight-line sequence: it computes `cancel_encryption` from the
observed flags, calls `Cancel()` on the engine exactly when that flag
is set, joins the worker thread, and only then inspects the engine
result and returns.  The model records that sequence as a trace of
events; `complete` and `terminate` are the values of
`encryption_complete` and `process_control.terminate` observed under
the mutex when the wait returned. -/

inductive EngineResult
  | success
  | cancelled
  | otherFailure
deriving DecidableEq

inductive CtlEvent
  | cancel
  | join
  | ret (ok : Bool)
deriving DecidableEq

/-- The controller's action sequence after its wait returns: an
optional `Cancel()` call (exactly when termination was observed before
completion), then the unconditional join, then the return whose value
is true iff the engine reported success. -/
def controllerTrace (complete terminate : Bool) (result : EngineResult) :
    List CtlEvent :=
  let cancel_work := terminate && !complete
  (if cancel_work then [CtlEvent.cancel] else []) ++
    [CtlEvent.join, CtlEvent.ret (result == EngineResult.success)]

/-- Claim C1: if termination is observed before the engine call
completes, `Cancel()` appears exactly once in the trace and before the
join; otherwise it does not appear; the join appears exactly once; and
the returned outcome is the unique last event, strictly after the
join -- so no outcome is ever returned while the worker thread is
still live, in every execution. -/
theorem claim_C1_cancel_once_join_before_return (complete terminate : Bool)
    (result : EngineResult) :
    ((terminate = true ∧ complete = false) →
      (controllerTrace complete terminate result).count CtlEvent.cancel = 1 ∧
      (controllerTrace complete terminate result).indexOf CtlEvent.cancel <
        (controllerTrace complete terminate result).indexOf CtlEvent.join) ∧
    (¬(terminate = true ∧ complete = false) →
      (controllerTrace complete terminate result).count CtlEvent.cancel = 0) ∧
    (controllerTrace complete terminate result).count CtlEvent.join = 1 ∧
    (controllerTrace complete terminate result).count
      (CtlEvent.ret (result == EngineResult.success)) = 1 ∧
    (controllerTrace complete terminate result).indexOf CtlEvent.join <
      (controllerTrace complete terminate result).indexOf
        (CtlEvent.ret (result == EngineResult.success)) ∧
    (controllerTrace complete terminate result).getLast? =
      some (CtlEvent.ret (result == EngineResult.success)) := by
  cases terminate <;> cases complete <;> cases result <;> decide

/-- Witness for C1: with termination observed and the engine not yet
complete, the cancelled run calls `Cancel()` exactly once. -/
theorem claim_C1_witness :
    (controllerTrace false true EngineResult.cancelled).count
        CtlEvent.cancel = 1 ∧
    (controllerTrace false true EngineResult.cancelled).indexOf
        CtlEvent.cancel <
      (controllerTrace false true EngineResult.cancelled).indexOf
        CtlEvent.join :=
  (claim_C1_cancel_once_join_before_return false true
    EngineResult.cancelled).1 ⟨rfl, rfl⟩

/-! ## The interactive password prompt
(POSIX `ReadTerminalText`, `password_prompt.cpp` lines 417-499)

The environment records the outcomes of the terminal operations the
function performs: whether `/dev/tty` opens, the terminal's initial
echo state, whether the `tcgetattr`/`tcsetattr` pair succeeds, whether
the two `write` calls (prompt, echoed newline) succeed, the characters
delivered by `read` before the read loop ends, and whether the loop
ends with a read error instead of ENTER.  The outcome records the
terminal's echo state at the moment the function returns. -/

inductive PasswordResult
  | success
  | noInput
  | unspecifiedError
deriving DecidableEq

structure TtyEnv where
  openOk : Bool
  echoOn : Bool
  attrOk : Bool
  promptWriteOk : Bool
  nlWriteOk : Bool
  chars : List Nat
  readFails : Bool
deriving DecidableEq

structure TtyOutcome where
  result : PasswordResult
  password : List Nat
  echoFinal : Bool
deriving DecidableEq

/-- `ReadTerminalText` (POSIX): open the tty; turn echo off if it was
on; write the prompt -- returning IMMEDIATELY on a write failure, with
no echo restoration; read characters until ENTER or a read error,
discarding control characters; then, on the remaining paths, restore
echo if it had been disabled, and map an empty successful read to
`noInput`. -/
def readTerminalText (env : TtyEnv) : TtyOutcome :=
  if env.openOk = false then
    ⟨PasswordResult.unspecifiedError, [], env.echoOn⟩
  else if env.attrOk = false then
    ⟨PasswordResult.unspecifiedError, [], env.echoOn⟩
  else
    if env.promptWriteOk = false then
      ⟨PasswordResult.unspecifiedError, [], false⟩
    else
      let password := env.chars.filter (fun c => 0x20 ≤ c)
      let loopResult :=
        if env.readFails then PasswordResult.unspecifiedError
        else if env.nlWriteOk then PasswordResult.success
        else PasswordResult.unspecifiedError
      let echoFinal := env.echoOn
      if loopResult = PasswordResult.success ∧ password = [] then
        ⟨PasswordResult.noInput, [], echoFinal⟩
      else ⟨loopResult, password, echoFinal⟩

/-- The failing environment for claim C9: the tty opens, echo is
initially enabled, the terminal attributes calls succeed, and the
`write` of the prompt fails. -/
def promptWriteFailEnv : TtyEnv :=
  ⟨true, true, true, false, true, [], false⟩

/-- On every exit path other than a failed prompt write the function
returns with the terminal's prior echo state restored. -/
theorem readTerminalText_restores_echo (env : TtyEnv)
    (hw : env.promptWriteOk = true) :
    (readTerminalText env).echoFinal = env.echoOn := by
  unfold readTerminalText
  by_cases ho : env.openOk = false
  · rw [if_pos ho]
  · rw [if_neg ho]
    by_cases ha : env.attrOk = false
    · rw [if_pos ha]
    · rw [if_neg ha]
      rw [if_neg (by simp [hw])]
      dsimp only
      split_ifs <;> rfl

/-- Claim C9 (code bug): on the prompt-write-error exit path the
function returns with echo still disabled even though it was enabled
on entry -- the early `return` after the failed `write` of the prompt
skips the restoration step, so the prior echo state is NOT restored on
every exit path (it is restored on the successful-read, read-error,
newline-write-error and empty-input paths). -/
theorem claim_C9_echo_left_disabled :
    promptWriteFailEnv.echoOn = true ∧
    (readTerminalText promptWriteFailEnv).result =
      PasswordResult.unspecifiedError ∧
    (readTerminalText promptWriteFailEnv).echoFinal = false := by
  exact ⟨rfl, rfl, rfl⟩
